import Mathlib

/-!
Verification of the cadence step-sync player against its design document.

The JavaScript source (src/app.js) is shallowly embedded below.  JavaScript
numbers are modelled as exact rationals (ℚ); millisecond timestamps, which the
code only ever adds, subtracts and compares, are modelled as integers (ℤ).
Where a method both mutates state and fires a callback, the embedding returns
the new state together with an `Option` carrying the callback payload.
-/

namespace Cadence

/-! ## StepDetector (src/app.js lines 3–126) -/

/-- Mutable fields of `StepDetector`.  `smoothAlpha`, `baselineAlpha` and
`minStepInterval` are set once in the constructor and never written again, so
they are embedded as the constants below rather than as state fields. -/
structure StepDetector where
  stepTimestamps : List ℤ
  spm : ℤ
  stepCount : ℕ
  smoothed : ℚ
  baseline : ℚ
  threshold : ℚ
  lastStepTime : ℤ
  aboveThreshold : Bool
  deriving Repr, DecidableEq

/-- `this.minStepInterval = 280` (ms). -/
def minStepInterval : ℤ := 280

/-- `this.smoothAlpha = 0.2`. -/
def smoothAlpha : ℚ := 2/10

/-- `this.baselineAlpha = 0.005`. -/
def baselineAlpha : ℚ := 5/1000

/-- The constructor state of `StepDetector` (lines 4–28). -/
def initStepDetector : StepDetector :=
  { stepTimestamps := []
    spm := 0
    stepCount := 0
    smoothed := 981/100
    baseline := 981/100
    threshold := 8/10
    lastStepTime := 0
    aboveThreshold := false }

/-- `StepDetector._calculateSPM` (lines 97–115).  Returns the new state and
the value passed to the `onSPMChange` callback, if it fired.  The JS
`intervals.sort((a, b) => a - b)` sorts numerically ascending, embedded as
`insertionSort (· ≤ ·)`; `Math.round` on a non-negative argument agrees with
Mathlib `round` (round half towards +∞). -/
def calculateSPM (d : StepDetector) : StepDetector × Option ℤ :=
  if d.stepTimestamps.length < 4 then (d, none)
  else
    let stamps := d.stepTimestamps.drop (d.stepTimestamps.length - 12)
    let intervals := List.zipWith (fun a b => b - a) stamps stamps.tail
    let sorted := List.insertionSort (· ≤ ·) intervals
    let median := sorted.getD (intervals.length / 2) 0
    let newSPM := round ((60000 : ℚ) / (median : ℚ))
    if 40 ≤ newSPM ∧ newSPM ≤ 220 then ({ d with spm := newSPM }, some newSPM)
    else (d, none)

/-- `StepDetector._registerStep` (lines 83–95): set `lastStepTime`, bump the
counter, append the timestamp, evict from the front down to the last 30, then
recompute SPM.  The second component is the `onSPMChange` payload. -/
def registerStep (d : StepDetector) (time : ℤ) : StepDetector × Option ℤ :=
  let appended := d.stepTimestamps ++ [time]
  calculateSPM
    { d with
      lastStepTime := time
      stepCount := d.stepCount + 1
      stepTimestamps := appended.drop (appended.length - 30) }

/-- `StepDetector._handleMotion` (lines 58–81) from the point where the
acceleration magnitude `m = sqrt(x²+y²+z²)` has been computed from the sensor
sample (the square root is the only irrational operation; everything from the
baseline update onward is embedded exactly).  The second component is the
timestamp of the accepted step, if the falling-edge trigger fired and passed
the debounce. -/
def handleMotion (d : StepDetector) (m : ℚ) (now : ℤ) : StepDetector × Option ℤ :=
  let d1 : StepDetector := { d with baseline := d.baseline + baselineAlpha * (m - d.baseline) }
  let d2 : StepDetector := { d1 with smoothed := d1.smoothed + smoothAlpha * (m - d1.smoothed) }
  let deviation := d2.smoothed - d2.baseline
  if d2.threshold < deviation then ({ d2 with aboveThreshold := true }, none)
  else if d2.aboveThreshold then
    let d3 : StepDetector := { d2 with aboveThreshold := false }
    if minStepInterval ≤ now - d3.lastStepTime then ((registerStep d3 now).1, some now)
    else (d3, none)
  else (d2, none)

/-- `StepDetector.simulateStep` (lines 54–56): calls `_registerStep(Date.now())`
directly.  The ambient clock value is the `now` argument. -/
def simulateStep (d : StepDetector) (now : ℤ) : StepDetector × Option ℤ :=
  ((registerStep d now).1, some now)

/-- `StepDetector._checkDecay` (lines 117–125).  Second component is the
`onSPMChange` payload. -/
def checkDecay (d : StepDetector) (now : ℤ) : StepDetector × Option ℤ :=
  match d.stepTimestamps.getLast? with
  | none => (d, none)
  | some last =>
      if 3000 < now - last then ({ d with spm := 0, stepTimestamps := [] }, some 0)
      else (d, none)

/-- One event arriving at a public step-registration entry point: either a
`devicemotion` sample (with its magnitude and arrival time) or a
`simulateStep()` call at a given clock time. -/
inductive SDInput where
  | motion : ℚ → ℤ → SDInput
  | sim : ℤ → SDInput
  deriving Repr, DecidableEq

/-- Whether an input uses the acceleration-feed path. -/
def SDInput.isMotion : SDInput → Bool
  | motion _ _ => true
  | sim _ => false

/-- Deliver one input to the detector. -/
def sdStep (d : StepDetector) : SDInput → StepDetector × Option ℤ
  | SDInput.motion m now => handleMotion d m now
  | SDInput.sim now => simulateStep d now

/-- Timestamps of all accepted step events over a run of inputs. -/
def acceptedSteps (d : StepDetector) : List SDInput → List ℤ
  | [] => []
  | i :: rest => (sdStep d i).2.toList ++ acceptedSteps (sdStep d i).1 rest

/-! ### Helper lemmas about the step-registration paths -/

lemma calculateSPM_lastStepTime (d : StepDetector) :
    (calculateSPM d).1.lastStepTime = d.lastStepTime := by
  unfold calculateSPM
  split
  · rfl
  · dsimp only
    split
    · rfl
    · rfl

lemma registerStep_lastStepTime (d : StepDetector) (t : ℤ) :
    (registerStep d t).1.lastStepTime = t := by
  unfold registerStep
  rw [calculateSPM_lastStepTime]

/-- On the acceleration feed, a step is only accepted at or after the debounce
interval, and registration records its time in `lastStepTime`. -/
lemma handleMotion_spec (d : StepDetector) (m : ℚ) (now : ℤ) :
    (∀ t, (handleMotion d m now).2 = some t →
      t = now ∧ d.lastStepTime + minStepInterval ≤ now ∧
        (handleMotion d m now).1.lastStepTime = now) ∧
    ((handleMotion d m now).2 = none →
      (handleMotion d m now).1.lastStepTime = d.lastStepTime) := by
  unfold handleMotion
  dsimp only
  split
  · constructor
    · intro t ht
      cases ht
    · intro _
      rfl
  · split
    · split
      · rename_i hdeb
        constructor
        · intro t ht
          obtain rfl : now = t := Option.some.inj ht
          exact ⟨rfl, by omega, registerStep_lastStepTime _ _⟩
        · intro hn
          cases hn
      · constructor
        · intro t ht
          cases ht
        · intro _
          rfl
    · constructor
      · intro t ht
        cases ht
      · intro _
        rfl

/-- Invariant for the motion-only runs: every accepted step lies at least
`minStepInterval` after the incoming `lastStepTime`, and the accepted list is
pairwise separated by at least `minStepInterval`. -/
lemma acceptedSteps_motion_inv (inputs : List SDInput) :
    ∀ d : StepDetector, (∀ i ∈ inputs, i.isMotion = true) →
      (∀ x ∈ acceptedSteps d inputs, d.lastStepTime + minStepInterval ≤ x) ∧
      List.Pairwise (fun a b : ℤ => a + minStepInterval ≤ b) (acceptedSteps d inputs) := by
  induction inputs with
  | nil =>
    intro d _
    constructor
    · intro x hx
      cases hx
    · exact List.Pairwise.nil
  | cons i rest ih =>
    intro d hmot
    have hi : i.isMotion = true := hmot i (List.mem_cons_self i rest)
    have hrest : ∀ j ∈ rest, j.isMotion = true := fun j hj => hmot j (List.mem_cons_of_mem i hj)
    obtain ⟨m, now, rfl⟩ : ∃ m now, i = SDInput.motion m now := by
      cases i with
      | motion m now => exact ⟨m, now, rfl⟩
      | sim now => cases hi
    have hspec := handleMotion_spec d m now
    have hacc : acceptedSteps d (SDInput.motion m now :: rest)
        = (handleMotion d m now).2.toList ++ acceptedSteps (handleMotion d m now).1 rest := rfl
    rw [hacc]
    rcases hopt : (handleMotion d m now).2 with _ | t
    · -- no step accepted here: lastStepTime unchanged
      have hlast := hspec.2 hopt
      obtain ⟨hall, hpw⟩ := ih (handleMotion d m now).1 hrest
      rw [hlast] at hall
      simp only [Option.toList, List.nil_append]
      exact ⟨hall, hpw⟩
    · -- step accepted at `t = now`
      obtain ⟨hall, hpw⟩ := ih (handleMotion d m now).1 hrest
      obtain ⟨heq, hdeb, hlast⟩ := hspec.1 t hopt
      simp only [Option.toList, List.singleton_append]
      constructor
      · intro x hx
        rcases List.mem_cons.mp hx with hxt | hx
        · rw [hxt, heq]
          exact hdeb
        · have hx' := hall x hx
          rw [hlast] at hx'
          unfold minStepInterval at hdeb hx' ⊢
          omega
      · refine List.Pairwise.cons (fun x hx => ?_) hpw
        have hx' := hall x hx
        rw [hlast] at hx'
        rw [heq]
        exact hx'

/-- Claim C1, amended: along any input sequence consisting only of
acceleration-feed events (`_handleMotion`), any two accepted step events are at
least `minStepInterval` (280 ms) apart.  (`simulateStep` bypasses the debounce;
see the counterexample.) -/
theorem motion_steps_debounced (inputs : List SDInput)
    (h : ∀ i ∈ inputs, i.isMotion = true) :
    List.Pairwise (fun a b : ℤ => a + minStepInterval ≤ b)
      (acceptedSteps initStepDetector inputs) :=
  (acceptedSteps_motion_inv inputs initStepDetector h).2

/-- Witness for `motion_steps_debounced` at a concrete motion-only run of two
magnitude spikes with falling edges 400 ms apart; both falling edges register
steps (at 400 and at 800), 400 ≥ 280 apart. -/
theorem motion_steps_debounced_witness :
    (∀ i ∈ [SDInput.motion 20 300, SDInput.motion 0 400,
             SDInput.motion 20 700, SDInput.motion 0 800], i.isMotion = true) ∧
    List.Pairwise (fun a b : ℤ => a + minStepInterval ≤ b)
      (acceptedSteps initStepDetector
        [SDInput.motion 20 300, SDInput.motion 0 400,
         SDInput.motion 20 700, SDInput.motion 0 800]) ∧
    acceptedSteps initStepDetector
        [SDInput.motion 20 300, SDInput.motion 0 400,
         SDInput.motion 20 700, SDInput.motion 0 800] = [400, 800] :=
  ⟨by decide, motion_steps_debounced _ (by decide), by
    norm_num [acceptedSteps, sdStep, handleMotion, registerStep, calculateSPM,
      initStepDetector, smoothAlpha, baselineAlpha, minStepInterval, Option.toList]⟩

/-- Counterexample to claim C1 as stated: two `simulateStep()` calls 100 ms
apart are both accepted, because `simulateStep` calls `_registerStep` directly
and never consults the `minStepInterval` debounce. -/
theorem simulateStep_bypasses_debounce :
    acceptedSteps initStepDetector [SDInput.sim 1000, SDInput.sim 1100] = [1000, 1100] ∧
    ¬ ((1000 : ℤ) + minStepInterval ≤ 1100) := by
  constructor
  · rfl
  · decide

/-- Claim C6, confirmed: for a state with at least 4 stored timestamps,
`_calculateSPM` forms the consecutive intervals of the last 12 timestamps,
sorts them, takes the middle element of the sorted list, computes
`round(60000/median)`, and publishes it (state update plus `onSPMChange`)
exactly when it lies in [40, 220], otherwise retaining the previous SPM
unchanged; with fewer than 4 timestamps nothing is computed or published. -/
theorem calculateSPM_median_spec (d : StepDetector) :
    (d.stepTimestamps.length < 4 → calculateSPM d = (d, none)) ∧
    (4 ≤ d.stepTimestamps.length →
      ∀ l : List ℤ,
        l.Perm (List.zipWith (fun a b => b - a)
          (d.stepTimestamps.drop (d.stepTimestamps.length - 12))
          (d.stepTimestamps.drop (d.stepTimestamps.length - 12)).tail) →
        l.Sorted (· ≤ ·) →
        ((40 ≤ round ((60000 : ℚ) / ((l.getD (l.length / 2) 0 : ℤ) : ℚ)) ∧
            round ((60000 : ℚ) / ((l.getD (l.length / 2) 0 : ℤ) : ℚ)) ≤ 220) →
          calculateSPM d =
            ({ d with spm := round ((60000 : ℚ) / ((l.getD (l.length / 2) 0 : ℤ) : ℚ)) },
              some (round ((60000 : ℚ) / ((l.getD (l.length / 2) 0 : ℤ) : ℚ))))) ∧
        (¬ (40 ≤ round ((60000 : ℚ) / ((l.getD (l.length / 2) 0 : ℤ) : ℚ)) ∧
            round ((60000 : ℚ) / ((l.getD (l.length / 2) 0 : ℤ) : ℚ)) ≤ 220) →
          calculateSPM d = (d, none))) := by
  constructor
  · intro h
    unfold calculateSPM
    rw [if_pos h]
  · intro h4 l hperm hsorted
    have hlen4 : ¬ d.stepTimestamps.length < 4 := by omega
    have hsorted2 : (List.insertionSort (· ≤ ·)
        (List.zipWith (fun a b => b - a)
          (d.stepTimestamps.drop (d.stepTimestamps.length - 12))
          (d.stepTimestamps.drop (d.stepTimestamps.length - 12)).tail)).Sorted (· ≤ ·) :=
      List.sorted_insertionSort _ _
    have hperm2 := List.perm_insertionSort (α := ℤ) (· ≤ ·)
      (List.zipWith (fun a b => b - a)
        (d.stepTimestamps.drop (d.stepTimestamps.length - 12))
        (d.stepTimestamps.drop (d.stepTimestamps.length - 12)).tail)
    have hl : l = List.insertionSort (· ≤ ·)
        (List.zipWith (fun a b => b - a)
          (d.stepTimestamps.drop (d.stepTimestamps.length - 12))
          (d.stepTimestamps.drop (d.stepTimestamps.length - 12)).tail) :=
      List.eq_of_perm_of_sorted (hperm.trans hperm2.symm) hsorted hsorted2
    have hlenl : l.length = (List.zipWith (fun a b => b - a)
        (d.stepTimestamps.drop (d.stepTimestamps.length - 12))
        (d.stepTimestamps.drop (d.stepTimestamps.length - 12)).tail).length :=
      hperm.length_eq
    constructor
    · intro hin
      unfold calculateSPM
      rw [if_neg hlen4]
      dsimp only
      rw [← hlenl, ← hl, if_pos hin]
    · intro hout
      unfold calculateSPM
      rw [if_neg hlen4]
      dsimp only
      rw [← hlenl, ← hl, if_neg hout]

/-- Concrete detector state for the C6 witness: four steps 500 ms apart. -/
def walkDetector : StepDetector :=
  { stepTimestamps := [0, 500, 1000, 1500]
    spm := 0
    stepCount := 4
    smoothed := 981/100
    baseline := 981/100
    threshold := 8/10
    lastStepTime := 1500
    aboveThreshold := false }

/-- Witness for `calculateSPM_median_spec`: four timestamps 500 ms apart give
median interval 500, SPM `round(60000/500) = 120 ∈ [40, 220]`, published. -/
theorem calculateSPM_median_spec_witness :
    calculateSPM walkDetector = ({ walkDetector with spm := 120 }, some 120) := by
  have h := ((calculateSPM_median_spec walkDetector).2 (by norm_num [walkDetector])
      [500, 500, 500] (by decide) (by decide)).1
    (by norm_num [round, walkDetector, List.getD_cons_succ, List.getD_cons_zero])
  rw [h]
  norm_num [round, List.getD_cons_succ, List.getD_cons_zero]

/-- Claim C7, confirmed: with a non-empty timestamp history, the periodic
decay check zeroes SPM, clears the history and fires `onSPMChange 0` exactly
when more than 3000 ms have elapsed since the most recent accepted step;
otherwise it leaves the state unchanged and fires nothing. -/
theorem checkDecay_spec (d : StepDetector) (now last : ℤ)
    (h : d.stepTimestamps.getLast? = some last) :
    (3000 < now - last →
      checkDecay d now = ({ d with spm := 0, stepTimestamps := [] }, some 0)) ∧
    (now - last ≤ 3000 → checkDecay d now = (d, none)) := by
  unfold checkDecay
  rw [h]
  dsimp only
  constructor
  · intro hlt
    rw [if_pos hlt]
  · intro hle
    rw [if_neg (by omega)]

/-- Witness for `checkDecay_spec` on `walkDetector` (last step at 1500 ms):
at 5000 ms the decay fires and resets; at 3000 ms it does nothing. -/
theorem checkDecay_spec_witness :
    checkDecay walkDetector 5000
      = ({ walkDetector with spm := 0, stepTimestamps := [] }, some 0) ∧
    checkDecay walkDetector 3000 = (walkDetector, none) :=
  ⟨(checkDecay_spec walkDetector 5000 1500 rfl).1 (by norm_num),
   (checkDecay_spec walkDetector 3000 1500 rfl).2 (by norm_num)⟩

/-! ## AudioEngine (src/app.js lines 131–248) -/

/-- The numeric state of `AudioEngine`.  The HTML audio element itself
(`this.audio`), the load/play flags and the file name are external plumbing
with no bearing on the rate logic. -/
structure AudioEngine where
  originalBPM : ℚ
  targetRate : ℚ
  currentRate : ℚ
  minRate : ℚ
  maxRate : ℚ
  smoothing : ℚ
  deriving Repr, DecidableEq

/-- Constructor values (lines 135–140). -/
def initAudioEngine : AudioEngine :=
  { originalBPM := 0
    targetRate := 1
    currentRate := 1
    minRate := 7/10
    maxRate := 14/10
    smoothing := 8/100 }

/-- `AudioEngine.resetRate` (lines 197–199): only `targetRate` is written. -/
def resetRate (e : AudioEngine) : AudioEngine := { e with targetRate := 1 }

/-- One iteration of `AudioEngine._smoothLoop` (lines 213–228): exponential
smoothing of `currentRate` toward `targetRate`, then clamping.  The push to
`audio.playbackRate` behind the 0.002 epsilon touches only the external audio
element and is not part of the rate state. -/
def smoothTick (e : AudioEngine) : AudioEngine :=
  let c := e.currentRate + e.smoothing * (e.targetRate - e.currentRate)
  { e with currentRate := max e.minRate (min e.maxRate c) }

/-! ## App rate-control state (src/app.js lines 622–1133) -/

/-- The fields of `App` and its collaborators that the rate-control logic
reads or writes.  `detectorSpm` is `this.stepDetector.spm` as read by
`_updateTargetRate`; `currentBeatOffset` is `this._currentBeatOffset`
(`none` embeds JS `undefined`); `phaseCorrection` is `this._phaseCorrection`. -/
structure App where
  syncing : Bool
  engine : AudioEngine
  detectorSpm : ℤ
  phaseCorrection : ℚ
  currentBeatOffset : Option ℚ
  deriving Repr, DecidableEq

/-- `App._updateTargetRate` (lines 1117–1133).  The JS truthiness tests
`!spm` and `!this.audioEngine.originalBPM` are zero tests on these numeric
fields. -/
def updateTargetRate (a : App) : App :=
  if a.detectorSpm = 0 ∨ a.engine.originalBPM = 0 then
    { a with engine := resetRate a.engine }
  else
    let rate := (a.detectorSpm : ℚ) / a.engine.originalBPM
    let rate := match a.currentBeatOffset with
      | some _ => rate * (1 + a.phaseCorrection)
      | none => rate
    { a with engine := { a.engine with
        targetRate := max a.engine.minRate (min a.engine.maxRate rate) } }

/-- `App._onSPMChange` (lines 1105–1115), rate-control branch only (the SPM
ring/number rendering is DOM work).  The callback argument equals
`stepDetector.spm` at invocation time, i.e. the `detectorSpm` field. -/
def onSPMChange (a : App) : App :=
  if a.syncing = true ∧ 0 < a.detectorSpm then updateTargetRate a
  else { a with engine := resetRate a.engine, phaseCorrection := 0 }

/-- `App._toggleSync` (lines 1042–1071).  With sync on it stops the detector,
resets the target rate and clears the phase correction (button/display
updates are DOM-only).  With sync off it starts the detector; `startOk`
stands for `stepDetector.start()` resolving rather than throwing on the
motion-permission request. -/
def toggleSync (a : App) (startOk : Bool) : App :=
  if a.syncing then
    { a with syncing := false, engine := resetRate a.engine, phaseCorrection := 0 }
  else if startOk then { a with syncing := true }
  else a

/-- Claim C2, amended: toggling sync off sets `targetRate = 1.0` and
`phaseCorrection = 0`, but leaves `currentRate` unchanged — `resetRate` only
writes `targetRate`, and `currentRate` merely converges toward it through the
smoothing loop afterwards. -/
theorem toggleSyncOff_resets_target (a : App) (ok : Bool) (h : a.syncing = true) :
    (toggleSync a ok).engine.targetRate = 1 ∧
    (toggleSync a ok).phaseCorrection = 0 ∧
    (toggleSync a ok).engine.currentRate = a.engine.currentRate ∧
    (toggleSync a ok).syncing = false := by
  simp [toggleSync, resetRate, h]

/-- A syncing state with a smoothed rate mid-flight (`currentRate = 1.2`). -/
def syncOnState : App :=
  { syncing := true
    engine :=
      { originalBPM := 120
        targetRate := 5/4
        currentRate := 6/5
        minRate := 7/10
        maxRate := 14/10
        smoothing := 8/100 }
    detectorSpm := 150
    phaseCorrection := -1/10
    currentBeatOffset := some 0 }

/-- Witness for `toggleSyncOff_resets_target` at `syncOnState`. -/
theorem toggleSyncOff_resets_target_witness :
    (toggleSync syncOnState true).engine.targetRate = 1 ∧
    (toggleSync syncOnState true).phaseCorrection = 0 ∧
    (toggleSync syncOnState true).engine.currentRate = syncOnState.engine.currentRate ∧
    (toggleSync syncOnState true).syncing = false :=
  toggleSyncOff_resets_target syncOnState true rfl

/-- Counterexample to claim C2 as stated: toggling sync off from
`syncOnState` leaves `currentRate` at 1.2, not 1.0 — only the target rate and
the phase correction are reset. -/
theorem toggleSyncOff_keeps_currentRate :
    (toggleSync syncOnState true).engine.currentRate = 6/5 ∧ ¬ ((6/5 : ℚ) = 1) := by
  constructor
  · rfl
  · norm_num

/-- Claim C3, amended: an SPM update with SPM > 0 and a known track tempo
sets `targetRate = clamp(spm / originalBPM, minRate, maxRate)` provided no
beat-phase anchor is defined (or the phase correction is zero); when either
quantity is unknown (zero) the target rate is reset to 1.0.  (With an anchor
and a non-zero phase correction the base ratio is additionally multiplied by
`1 + phaseCorrection` before clamping; see the counterexample.) -/
theorem updateTargetRate_spec (a : App) :
    ((a.detectorSpm = 0 ∨ a.engine.originalBPM = 0) →
      (updateTargetRate a).engine.targetRate = 1) ∧
    (a.detectorSpm ≠ 0 → a.engine.originalBPM ≠ 0 →
      (a.currentBeatOffset = none ∨ a.phaseCorrection = 0) →
      (updateTargetRate a).engine.targetRate =
        max a.engine.minRate (min a.engine.maxRate
          ((a.detectorSpm : ℚ) / a.engine.originalBPM))) := by
  constructor
  · intro h
    unfold updateTargetRate resetRate
    rw [if_pos h]
  · intro h1 h2 h3
    unfold updateTargetRate
    rw [if_neg (by tauto)]
    dsimp only
    cases hcb : a.currentBeatOffset with
    | none => rfl
    | some off =>
        rcases h3 with h3 | h3
        · rw [h3] at hcb
          cases hcb
        · rw [h3]
          norm_num

/-- A state with SPM 150 and track tempo 120, no beat anchor. -/
def plainRunState : App :=
  { syncing := true
    engine :=
      { originalBPM := 120
        targetRate := 1
        currentRate := 1
        minRate := 7/10
        maxRate := 14/10
        smoothing := 8/100 }
    detectorSpm := 150
    phaseCorrection := 0
    currentBeatOffset := none }

/-- Witness for `updateTargetRate_spec`: track tempo 120 and SPM 150 give
`targetRate = clamp(1.25, 0.7, 1.4) = 1.25`. -/
theorem updateTargetRate_spec_witness :
    (updateTargetRate plainRunState).engine.targetRate = 5/4 := by
  have h := (updateTargetRate_spec plainRunState).2
    (by norm_num [plainRunState]) (by norm_num [plainRunState]) (Or.inl rfl)
  rw [h]
  norm_num [plainRunState, min_def, max_def]

/-- Like `plainRunState` but with a beat anchor and phase correction −0.2. -/
def phasedRunState : App :=
  { syncing := true
    engine :=
      { originalBPM := 120
        targetRate := 1
        currentRate := 1
        minRate := 7/10
        maxRate := 14/10
        smoothing := 8/100 }
    detectorSpm := 150
    phaseCorrection := -1/5
    currentBeatOffset := some 0 }

/-- Counterexample to claim C3 as stated: with SPM 150, tempo 120, a defined
beat anchor and phase correction −0.2, the SPM update sets
`targetRate = clamp(1.25·0.8) = 1`, not `clamp(1.25) = 1.25`. -/
theorem updateTargetRate_phase_deviates :
    (updateTargetRate phasedRunState).engine.targetRate = 1 ∧
    max (7/10 : ℚ) (min (14/10) ((150 : ℚ) / 120)) = 5/4 ∧
    ¬ ((1 : ℚ) = 5/4) := by
  refine ⟨?_, by norm_num [min_def, max_def], by norm_num⟩
  norm_num [updateTargetRate, phasedRunState, min_def, max_def]

/-! ## JS remainder and `App._onStep` -/

/-- JS `Math.trunc`-style integer part of a quotient: round toward zero. -/
def jsTrunc (q : ℚ) : ℤ := if 0 ≤ q then ⌊q⌋ else ⌈q⌉

/-- The JS remainder operator `a % b`: `a - b·trunc(a/b)`, sign follows the
dividend. -/
def jsRem (a b : ℚ) : ℚ := a - b * (jsTrunc (a / b) : ℚ)

lemma jsRem_of_nonneg (y b : ℚ) (hb : 0 < b) (hy : 0 ≤ y) :
    jsRem y b = b * Int.fract (y / b) := by
  have hq : 0 ≤ y / b := div_nonneg hy hb.le
  unfold jsRem jsTrunc
  rw [if_pos hq, Int.fract]
  have hbne : b ≠ 0 := ne_of_gt hb
  field_simp

/-- The double-remainder idiom `((x % b) + b) % b` of `_onStep` computes the
canonical non-negative representative `b · fract(x/b)` for a positive
modulus. -/
lemma jsRem_shift (x b : ℚ) (hb : 0 < b) :
    jsRem (jsRem x b + b) b = b * Int.fract (x / b) := by
  have hbne : b ≠ 0 := ne_of_gt hb
  by_cases hq : 0 ≤ x / b
  · have h1 : jsRem x b = b * Int.fract (x / b) := by
      unfold jsRem jsTrunc
      rw [if_pos hq, Int.fract]
      field_simp
    rw [h1]
    have harg : 0 ≤ b * Int.fract (x / b) + b :=
      add_nonneg (mul_nonneg hb.le (Int.fract_nonneg _)) hb.le
    rw [jsRem_of_nonneg _ _ hb harg]
    have hdiv : (b * Int.fract (x / b) + b) / b = Int.fract (x / b) + 1 := by
      field_simp
      ring
    rw [hdiv]
    have h2 : Int.fract (Int.fract (x / b) + 1) = Int.fract (x / b) := by
      rw [show (1 : ℚ) = ((1 : ℤ) : ℚ) by norm_num, Int.fract_add_int, Int.fract_fract]
    rw [h2]
  · push_neg at hq
    by_cases hf : Int.fract (x / b) = 0
    · have hx : x / b = (⌊x / b⌋ : ℚ) := by
        have hs := Int.self_sub_fract (x / b)
        rw [hf, sub_zero] at hs
        exact hs
      have hc : (⌈x / b⌉ : ℤ) = ⌊x / b⌋ := by
        rw [hx]
        simp
      have h1 : jsRem x b = 0 := by
        unfold jsRem jsTrunc
        rw [if_neg (not_le.mpr hq), hc]
        have hxx : x = b * (x / b) := by field_simp
        rw [hx] at hxx
        linear_combination hxx
      rw [h1, zero_add, jsRem_of_nonneg b b hb hb.le, div_self hbne, Int.fract_one, hf]
    · have hceil : ((⌈x / b⌉ : ℤ) : ℚ) = x / b + 1 - Int.fract (x / b) :=
        Int.ceil_eq_add_one_sub_fract hf
      have h1 : jsRem x b = b * (Int.fract (x / b) - 1) := by
        unfold jsRem jsTrunc
        rw [if_neg (not_le.mpr hq), hceil]
        field_simp
        ring
      rw [h1]
      have harg : 0 ≤ b * (Int.fract (x / b) - 1) + b := by
        have hsum : b * (Int.fract (x / b) - 1) + b = b * Int.fract (x / b) := by ring
        rw [hsum]
        exact mul_nonneg hb.le (Int.fract_nonneg _)
      rw [jsRem_of_nonneg _ _ hb harg]
      have hdiv : (b * (Int.fract (x / b) - 1) + b) / b = Int.fract (x / b) := by
        field_simp
        ring
      rw [hdiv, Int.fract_fract]

/-- `App._onStep` (lines 1082–1103), restricted to its rate-control effect
(the flash animation and the visualizer recording touch only the DOM).
`audioTime` is `this.audioEngine.currentTime` at the moment of the step. -/
def onStep (a : App) (audioTime : ℚ) : App :=
  match a.currentBeatOffset with
  | some off =>
      if a.syncing = true ∧ a.engine.originalBPM ≠ 0 then
        let beatPeriod := 60 / a.engine.originalBPM
        let phase := jsRem (jsRem (audioTime - off) beatPeriod + beatPeriod) beatPeriod
        let e0 := phase / beatPeriod
        let err := if 1/2 < e0 then e0 - 1 else e0
        updateTargetRate { a with phaseCorrection := -err * (4/10) }
      else a
  | none => a

/-- Claim C4, amended: on a step received while syncing with a known
(positive) track BPM, a defined beat-phase anchor and a non-zero SPM, the
phase `((audioTime − beatOffset) % beatPeriod + beatPeriod) % beatPeriod`
equals the canonical beat-period modulus, the normalized error `e` lies in
(−1/2, 1/2], `phaseCorrection` is set to `−0.4·e`, and the target rate
becomes `clamp((spm/originalBPM)·(1 + phaseCorrection))` — the correction
multiplies the unclamped base ratio and a single clamp follows.  (With
SPM = 0 the code resets the target rate to 1.0 instead; see the
counterexample.) -/
theorem onStep_phase_correction (a : App) (t off : ℚ)
    (hsync : a.syncing = true) (hbpm : 0 < a.engine.originalBPM)
    (hoff : a.currentBeatOffset = some off) (hspm : a.detectorSpm ≠ 0) :
    ∀ bp phase e0 e : ℚ,
      bp = 60 / a.engine.originalBPM →
      phase = jsRem (jsRem (t - off) bp + bp) bp →
      e0 = phase / bp →
      e = (if 1/2 < e0 then e0 - 1 else e0) →
      phase = bp * Int.fract ((t - off) / bp) ∧
      (-(1/2) < e ∧ e ≤ 1/2) ∧
      (onStep a t).phaseCorrection = -e * (4/10) ∧
      (onStep a t).engine.targetRate =
        max a.engine.minRate (min a.engine.maxRate
          (((a.detectorSpm : ℚ) / a.engine.originalBPM) * (1 + -e * (4/10)))) := by
  intro bp phase e0 e hbp hphase he0 he
  have hbppos : 0 < bp := by
    rw [hbp]
    positivity
  have hphase2 : phase = bp * Int.fract ((t - off) / bp) := by
    rw [hphase, jsRem_shift _ _ hbppos]
  have he02 : e0 = Int.fract ((t - off) / bp) := by
    rw [he0, hphase2, mul_div_cancel_left₀ _ (ne_of_gt hbppos)]
  have hf0 : (0 : ℚ) ≤ e0 := by
    rw [he02]
    exact Int.fract_nonneg _
  have hf1 : e0 < 1 := by
    rw [he02]
    exact Int.fract_lt_one _
  refine ⟨hphase2, ?_, ?_, ?_⟩
  · rw [he]
    split
    · constructor
      · linarith
      · linarith
    · constructor
      · linarith
      · linarith
  · unfold onStep
    rw [hoff]
    dsimp only
    rw [if_pos ⟨hsync, ne_of_gt hbpm⟩]
    unfold updateTargetRate
    have hcond : ¬ (a.detectorSpm = 0 ∨ a.engine.originalBPM = 0) := by
      push_neg
      exact ⟨hspm, ne_of_gt hbpm⟩
    rw [if_neg hcond]
    dsimp only
    rw [he, he0, hphase, hbp]
  · unfold onStep
    rw [hoff]
    dsimp only
    rw [if_pos ⟨hsync, ne_of_gt hbpm⟩]
    unfold updateTargetRate
    have hcond : ¬ (a.detectorSpm = 0 ∨ a.engine.originalBPM = 0) := by
      push_neg
      exact ⟨hspm, ne_of_gt hbpm⟩
    rw [if_neg hcond]
    dsimp only
    rw [he, he0, hphase, hbp]

/-- Witness for `onStep_phase_correction`: in `phasedRunState` (BPM 120,
anchor 0, SPM 150) a step at audio position 0.1 s gives phase 0.1 of a 0.5 s
beat period, error 0.2, correction −0.08, and target
`clamp(1.25·0.92) = 1.15`. -/
theorem onStep_phase_correction_witness :
    (onStep phasedRunState (1/10)).phaseCorrection = -(2/25) ∧
    (onStep phasedRunState (1/10)).engine.targetRate = 23/20 := by
  have h := onStep_phase_correction phasedRunState (1/10) 0 rfl
    (by norm_num [phasedRunState]) rfl (by norm_num [phasedRunState])
    _ _ _ _ rfl rfl rfl rfl
  obtain ⟨hph, hrange, hpc, htr⟩ := h
  constructor
  · rw [hpc]
    norm_num [jsRem, jsTrunc, phasedRunState]
  · rw [htr]
    norm_num [jsRem, jsTrunc, phasedRunState, min_def, max_def]

/-- A syncing state with beat anchor but `spm = 0` (fewer than 4 steps have
been seen, so no SPM estimate exists yet). -/
def restingState : App :=
  { syncing := true
    engine :=
      { originalBPM := 120
        targetRate := 13/10
        currentRate := 1
        minRate := 7/10
        maxRate := 14/10
        smoothing := 8/100 }
    detectorSpm := 0
    phaseCorrection := 0
    currentBeatOffset := some 0 }

/-- Counterexample to claim C4 as stated: a step while syncing with known BPM
120 and a defined anchor, but SPM 0, sets `phaseCorrection = −0.2` yet resets
the target rate to 1.0 — it is not multiplied by `1 + phaseCorrection`
(neither reading of the base target, 1.0 or 0/120, matches the result). -/
theorem onStep_zero_spm_resets :
    (onStep restingState (1/4)).phaseCorrection = -(1/5) ∧
    (onStep restingState (1/4)).engine.targetRate = 1 ∧
    ¬ ((1 : ℚ) = max (7/10) (min (14/10) ((1 : ℚ) * (1 + -(1/5))))) ∧
    ¬ ((1 : ℚ) = max (7/10) (min (14/10) (((0 : ℚ) / 120) * (1 + -(1/5))))) := by
  refine ⟨?_, ?_, ?_, ?_⟩
  · norm_num [onStep, updateTargetRate, resetRate, restingState, jsRem, jsTrunc]
  · norm_num [onStep, updateTargetRate, resetRate, restingState, jsRem, jsTrunc]
  · norm_num [min_def, max_def]
  · norm_num [min_def, max_def]

/-! ## Smoothing-loop convergence (claim C5) -/

lemma smoothTick_step_closed (x : AudioEngine) :
    (smoothTick x).currentRate
      = max x.minRate (min x.maxRate
          (x.currentRate + x.smoothing * (x.targetRate - x.currentRate))) := rfl

lemma smoothTick_fields (e : AudioEngine) (n : ℕ) :
    (smoothTick^[n] e).targetRate = e.targetRate ∧
    (smoothTick^[n] e).minRate = e.minRate ∧
    (smoothTick^[n] e).maxRate = e.maxRate ∧
    (smoothTick^[n] e).smoothing = e.smoothing := by
  induction n with
  | zero => exact ⟨rfl, rfl, rfl, rfl⟩
  | succ n ih =>
    rw [Function.iterate_succ_apply']
    exact ih

/-- Closed form of the smoothed rate: with the target inside the clamp range
the clamp never bites and the error decays geometrically. -/
lemma smoothTick_iter_closed (e : AudioEngine)
    (hs0 : 0 < e.smoothing) (hs1 : e.smoothing ≤ 1)
    (htmin : e.minRate ≤ e.targetRate) (htmax : e.targetRate ≤ e.maxRate)
    (hcmin : e.minRate ≤ e.currentRate) (hcmax : e.currentRate ≤ e.maxRate) :
    ∀ n : ℕ,
      (smoothTick^[n] e).currentRate
        = e.targetRate + (1 - e.smoothing) ^ n * (e.currentRate - e.targetRate) := by
  have hk0 : (0 : ℚ) ≤ 1 - e.smoothing := by linarith
  have hk1 : 1 - e.smoothing ≤ 1 := by linarith
  intro n
  induction n with
  | zero => simp
  | succ n ih =>
    obtain ⟨hT, hm, hM, hS⟩ := smoothTick_fields e n
    rw [Function.iterate_succ_apply', smoothTick_step_closed, hm, hM, hS, hT, ih]
    have hv : e.targetRate + (1 - e.smoothing) ^ n * (e.currentRate - e.targetRate)
          + e.smoothing * (e.targetRate
            - (e.targetRate + (1 - e.smoothing) ^ n * (e.currentRate - e.targetRate)))
        = e.targetRate
          + ((1 - e.smoothing) * (1 - e.smoothing) ^ n) * (e.currentRate - e.targetRate) := by
      ring
    rw [hv]
    have hppos : 0 ≤ (1 - e.smoothing) ^ n := pow_nonneg hk0 n
    have hq0 : 0 ≤ (1 - e.smoothing) * (1 - e.smoothing) ^ n := mul_nonneg hk0 hppos
    have hq1 : (1 - e.smoothing) * (1 - e.smoothing) ^ n ≤ 1 := by
      calc (1 - e.smoothing) * (1 - e.smoothing) ^ n = (1 - e.smoothing) ^ (n + 1) := by ring
        _ ≤ 1 := pow_le_one₀ hk0 hk1
    have hbounds : e.minRate ≤ e.targetRate
          + ((1 - e.smoothing) * (1 - e.smoothing) ^ n) * (e.currentRate - e.targetRate) ∧
        e.targetRate
          + ((1 - e.smoothing) * (1 - e.smoothing) ^ n) * (e.currentRate - e.targetRate)
          ≤ e.maxRate := by
      rcases le_total 0 (e.currentRate - e.targetRate) with he0 | he0
      · have h1 : 0 ≤ ((1 - e.smoothing) * (1 - e.smoothing) ^ n)
            * (e.currentRate - e.targetRate) := mul_nonneg hq0 he0
        have h2 : ((1 - e.smoothing) * (1 - e.smoothing) ^ n)
              * (e.currentRate - e.targetRate)
            ≤ 1 * (e.currentRate - e.targetRate) :=
          mul_le_mul_of_nonneg_right hq1 he0
        constructor
        · linarith
        · linarith
      · have h1 := mul_le_mul_of_nonneg_left he0 hq0
        have h2 : 1 * (e.currentRate - e.targetRate)
            ≤ ((1 - e.smoothing) * (1 - e.smoothing) ^ n)
              * (e.currentRate - e.targetRate) :=
          mul_le_mul_of_nonpos_right hq1 he0
        constructor
        · linarith
        · nlinarith [h1]
    rw [min_eq_right hbounds.2, max_eq_right hbounds.1]
    ring

/-- Claim C5, amended: every tick performs
`currentRate += smoothing·(targetRate − currentRate)` followed by a reclamp
to [minRate, maxRate] (unconditionally); provided the fixed target and the
starting rate lie within [minRate, maxRate] and `0 < smoothing ≤ 1`, the
error decreases monotonically, the rate approaches the target from one side
without overshoot, and for every ε > 0 the rate is eventually within ε of
the target.  (Without those provisos the code stalls at the clamp bound or
overshoots; see the counterexample.) -/
theorem smoothLoop_spec (e : AudioEngine) :
    ((smoothTick e).currentRate
      = max e.minRate (min e.maxRate
          (e.currentRate + e.smoothing * (e.targetRate - e.currentRate)))) ∧
    (0 < e.smoothing → e.smoothing ≤ 1 →
      e.minRate ≤ e.targetRate → e.targetRate ≤ e.maxRate →
      e.minRate ≤ e.currentRate → e.currentRate ≤ e.maxRate →
      (∀ n : ℕ,
        |(smoothTick^[n + 1] e).currentRate - e.targetRate|
          ≤ |(smoothTick^[n] e).currentRate - e.targetRate|) ∧
      (e.currentRate ≤ e.targetRate → ∀ n : ℕ,
        (smoothTick^[n] e).currentRate ≤ (smoothTick^[n + 1] e).currentRate ∧
        (smoothTick^[n] e).currentRate ≤ e.targetRate) ∧
      (e.targetRate ≤ e.currentRate → ∀ n : ℕ,
        (smoothTick^[n + 1] e).currentRate ≤ (smoothTick^[n] e).currentRate ∧
        e.targetRate ≤ (smoothTick^[n] e).currentRate) ∧
      (∀ ε : ℚ, 0 < ε → ∃ N : ℕ, ∀ n : ℕ, N ≤ n →
        |(smoothTick^[n] e).currentRate - e.targetRate| ≤ ε)) := by
  constructor
  · exact smoothTick_step_closed e
  · intro hs0 hs1 htmin htmax hcmin hcmax
    have hk0 : (0 : ℚ) ≤ 1 - e.smoothing := by linarith
    have hk1 : 1 - e.smoothing ≤ 1 := by linarith
    have hklt : 1 - e.smoothing < 1 := by linarith
    have hcf := smoothTick_iter_closed e hs0 hs1 htmin htmax hcmin hcmax
    have habs : ∀ m : ℕ,
        |(smoothTick^[m] e).currentRate - e.targetRate|
          = (1 - e.smoothing) ^ m * |e.currentRate - e.targetRate| := by
      intro m
      rw [hcf m, add_sub_cancel_left, abs_mul, abs_of_nonneg (pow_nonneg hk0 m)]
    have hpow : ∀ n : ℕ, (1 - e.smoothing) ^ (n + 1) ≤ (1 - e.smoothing) ^ n := by
      intro n
      calc (1 - e.smoothing) ^ (n + 1)
          = (1 - e.smoothing) ^ n * (1 - e.smoothing) := pow_succ _ _
        _ ≤ (1 - e.smoothing) ^ n * 1 :=
            mul_le_mul_of_nonneg_left hk1 (pow_nonneg hk0 n)
        _ = (1 - e.smoothing) ^ n := mul_one _
    refine ⟨?_, ?_, ?_, ?_⟩
    · intro n
      rw [habs (n + 1), habs n]
      exact mul_le_mul_of_nonneg_right (hpow n) (abs_nonneg _)
    · intro hct n
      have he0 : e.currentRate - e.targetRate ≤ 0 := by linarith
      have hppos : 0 ≤ (1 - e.smoothing) ^ n := pow_nonneg hk0 n
      constructor
      · rw [hcf (n + 1), hcf n, pow_succ]
        have key : 0 ≤ (1 - e.smoothing) ^ n * (-(e.currentRate - e.targetRate))
            * (1 - (1 - e.smoothing)) :=
          mul_nonneg (mul_nonneg hppos (by linarith)) (by linarith)
        nlinarith [key]
      · rw [hcf n]
        have key := mul_le_mul_of_nonneg_left he0 hppos
        nlinarith [key]
    · intro htc n
      have he0 : 0 ≤ e.currentRate - e.targetRate := by linarith
      have hppos : 0 ≤ (1 - e.smoothing) ^ n := pow_nonneg hk0 n
      constructor
      · rw [hcf (n + 1), hcf n, pow_succ]
        have key : 0 ≤ (1 - e.smoothing) ^ n * (e.currentRate - e.targetRate)
            * (1 - (1 - e.smoothing)) :=
          mul_nonneg (mul_nonneg hppos he0) (by linarith)
        nlinarith [key]
      · rw [hcf n]
        have key : 0 ≤ (1 - e.smoothing) ^ n * (e.currentRate - e.targetRate) :=
          mul_nonneg hppos he0
        linarith [key]
    · intro ε hε
      by_cases hzero : e.currentRate - e.targetRate = 0
      · refine ⟨0, fun n _ => ?_⟩
        rw [habs n, hzero, abs_zero, mul_zero]
        exact hε.le
      · have habs0 : 0 < |e.currentRate - e.targetRate| := abs_pos.mpr hzero
        obtain ⟨N, hN⟩ := exists_pow_lt_of_lt_one (div_pos hε habs0) hklt
        refine ⟨N, fun n hn => ?_⟩
        rw [habs n]
        have hmono : (1 - e.smoothing) ^ n ≤ (1 - e.smoothing) ^ N :=
          pow_le_pow_of_le_one hk0 hk1 hn
        have h1 : (1 - e.smoothing) ^ n * |e.currentRate - e.targetRate|
            ≤ (1 - e.smoothing) ^ N * |e.currentRate - e.targetRate| :=
          mul_le_mul_of_nonneg_right hmono (abs_nonneg _)
        have h2 : (1 - e.smoothing) ^ N * |e.currentRate - e.targetRate| < ε :=
          (lt_div_iff₀ habs0).mp hN
        linarith

/-- An engine whose target rate 2.0 lies above `maxRate = 1.4`: the clamp
makes `currentRate = 1.4` a fixed point of the smoothing loop. -/
def engineHighTarget : AudioEngine :=
  { originalBPM := 120
    targetRate := 2
    currentRate := 14/10
    minRate := 7/10
    maxRate := 14/10
    smoothing := 8/100 }

/-- An engine with smoothing coefficient 2. -/
def engineOvershoot : AudioEngine :=
  { originalBPM := 120
    targetRate := 1
    currentRate := 6/5
    minRate := 7/10
    maxRate := 14/10
    smoothing := 2 }

/-- Counterexample to claim C5 as stated: with the fixed target 2.0 above
`maxRate = 1.4` the smoothed rate is stuck at 1.4 (a fixed point), never
reaching within ε = 1/2 of the target; and with smoothing coefficient 2 a
rate of 1.2 jumps past the target 1.0 down to 0.8 — an overshoot. -/
theorem smoothTick_claim_fails :
    (smoothTick engineHighTarget = engineHighTarget ∧
      ¬ (|engineHighTarget.currentRate - engineHighTarget.targetRate| ≤ 1/2)) ∧
    ((smoothTick engineOvershoot).currentRate = 4/5 ∧
      engineOvershoot.currentRate = 6/5 ∧ engineOvershoot.targetRate = 1 ∧
      (4/5 : ℚ) < 1 ∧ (1 : ℚ) < 6/5) := by
  refine ⟨⟨?_, by norm_num [engineHighTarget, abs_of_nonpos]⟩, ?_, rfl, rfl, by norm_num,
    by norm_num⟩
  · norm_num [smoothTick, engineHighTarget, min_def, max_def]
  · norm_num [smoothTick, engineOvershoot, min_def, max_def]

/-- The default engine with a loaded 120 BPM track, SPM-driven target 1.25 and
a mid-flight current rate of 1.0. -/
def engineMidFlight : AudioEngine :=
  { originalBPM := 120
    targetRate := 5/4
    currentRate := 1
    minRate := 7/10
    maxRate := 14/10
    smoothing := 8/100 }

/-- Witness for `smoothLoop_spec` on `engineMidFlight`: the first-tick error
shrinks, and the rate is eventually within 1/100 of the target. -/
theorem smoothLoop_spec_witness :
    |(smoothTick^[1] engineMidFlight).currentRate - engineMidFlight.targetRate|
      ≤ |(smoothTick^[0] engineMidFlight).currentRate - engineMidFlight.targetRate| ∧
    ∃ N : ℕ, ∀ n : ℕ, N ≤ n →
      |(smoothTick^[n] engineMidFlight).currentRate - engineMidFlight.targetRate|
        ≤ 1/100 := by
  have h := (smoothLoop_spec engineMidFlight).2
    (by norm_num [engineMidFlight]) (by norm_num [engineMidFlight])
    (by norm_num [engineMidFlight]) (by norm_num [engineMidFlight])
    (by norm_num [engineMidFlight]) (by norm_num [engineMidFlight])
  exact ⟨h.1 0, h.2.2.2 (1/100) (by norm_num)⟩

/-! ## BPMDetector: windowing (claim C8) -/

/-- The windowing prefix of `BPMDetector.detect` (src/app.js lines 264–268):
from the decoded buffer's duration in seconds, compute the intro skip and the
analysis length, failing when the usable window is shorter than 5 s.  The
remainder of `detect` consumes only the `(skip, dur)` pair (filter rendering
and scoring over the external audio data). -/
def detectWindow (duration : ℚ) : Except String (ℚ × ℚ) :=
  let skip := min 15 (duration * (15/100))
  let dur := min 30 (duration - skip)
  if dur < 5 then Except.error "Track too short for BPM detection"
  else Except.ok (skip, dur)

/-- Claim C8, confirmed: `detect` computes `skip = min(15, 0.15·duration)`
and analysis length `min(30, duration − skip)`, and throws — producing no
tempo result — exactly when that window is shorter than 5 seconds. -/
theorem detectWindow_spec (duration : ℚ) :
    ((∃ msg, detectWindow duration = Except.error msg) ↔
      min 30 (duration - min 15 (duration * (15/100))) < 5) ∧
    (¬ min 30 (duration - min 15 (duration * (15/100))) < 5 →
      detectWindow duration
        = Except.ok (min 15 (duration * (15/100)),
            min 30 (duration - min 15 (duration * (15/100))))) := by
  constructor
  · constructor
    · rintro ⟨msg, hm⟩
      by_contra hlt
      unfold detectWindow at hm
      dsimp only at hm
      rw [if_neg hlt] at hm
      cases hm
    · intro hlt
      refine ⟨"Track too short for BPM detection", ?_⟩
      unfold detectWindow
      dsimp only
      rw [if_pos hlt]
  · intro hge
    unfold detectWindow
    dsimp only
    rw [if_neg hge]

/-- Witness for `detectWindow_spec`: a 200 s track gives skip 15 s and a 30 s
window; a 4 s track is rejected. -/
theorem detectWindow_spec_witness :
    detectWindow 200 = Except.ok (15, 30) ∧
    (∃ msg, detectWindow 4 = Except.error msg) := by
  constructor
  · have h := (detectWindow_spec 200).2 (by norm_num [min_def])
    rw [h]
    norm_num [min_def]
  · exact (detectWindow_spec 4).1.mpr (by norm_num [min_def])

/-! ## BPMDetector: candidate selection and octave disambiguation (claim C9) -/

/-- `minBPM = 60` (line 291). -/
def minBPM : ℕ := 60

/-- `maxBPM = 200` (line 291). -/
def maxBPM : ℕ := 200

/-- One iteration of the best-candidate loop (lines 318–323).  The
accumulator carries the current `(best, bestScore)`; `none` embeds the
`-Infinity` initial score, which any finite score beats. -/
def bestStep (scores : ℕ → ℚ) (acc : ℕ × Option ℚ) (bpm : ℕ) : ℕ × Option ℚ :=
  match acc.2 with
  | none => (bpm, some (scores bpm))
  | some s => if s < scores bpm then (bpm, some (scores bpm)) else acc

/-- The best-candidate loop (lines 317–323) over the biased scores.
`scores` gives the biased score of each integer BPM candidate (the JS array
is indexed `bpm - minBPM`); the loop starts at `(120, -Infinity)`. -/
def findBest (scores : ℕ → ℚ) : ℕ × Option ℚ :=
  (List.range' minBPM (maxBPM - minBPM + 1)).foldl (bestStep scores) (120, none)

/-- The octave-disambiguation step (lines 325–335): possibly replace the
winner with its half tempo, then possibly with its double tempo.  Both checks
compare against the original winner and its score; the array accesses are
range-guarded.  `Math.round(best / 2)` on a natural number is `(best+1)/2`;
`Math.round(best * 2)` is exact. -/
def resolveOctave (scores : ℕ → ℚ) (best : ℕ) (bestScore : ℚ) : ℕ :=
  let half := (best + 1) / 2
  let dbl := best * 2
  let best1 :=
    if minBPM ≤ half ∧ half ≤ maxBPM ∧ bestScore * (85/100) < scores half ∧ 80 ≤ half
    then half else best
  if minBPM ≤ dbl ∧ dbl ≤ maxBPM ∧ bestScore * (12/10) < scores dbl then dbl else best1

/-- Lines 316–335 combined: best-candidate selection followed by octave
disambiguation.  (Over the non-empty candidate range the fold always
produces a `some` score; the `none` branch is unreachable.) -/
def chooseBPM (scores : ℕ → ℚ) : ℕ :=
  match findBest scores with
  | (b, some s) => resolveOctave scores b s
  | (b, none) => b

/-- Claim C9, amended: after best-candidate selection, the half-tempo
candidate replaces the winner exactly when its score is strictly greater
than 85 % of the winner's and the half tempo is at least 80 BPM; the
double-tempo candidate replaces the (original) winner exactly when it lies
within the 60–200 BPM candidate range and its score strictly exceeds the
winner's by more than 20 %.  The two checks are evaluated independently
against the original winner and may cascade, the double-tempo check deciding
last. -/
theorem octave_disambiguation (scores : ℕ → ℚ) (b : ℕ) (s : ℚ)
    (hfb : findBest scores = (b, some s)) :
    ((minBPM ≤ b * 2 ∧ b * 2 ≤ maxBPM ∧ s * (12/10) < scores (b * 2)) →
      chooseBPM scores = b * 2) ∧
    (¬ (minBPM ≤ b * 2 ∧ b * 2 ≤ maxBPM ∧ s * (12/10) < scores (b * 2)) →
      ((minBPM ≤ (b + 1) / 2 ∧ (b + 1) / 2 ≤ maxBPM ∧
          s * (85/100) < scores ((b + 1) / 2) ∧ 80 ≤ (b + 1) / 2) →
        chooseBPM scores = (b + 1) / 2) ∧
      (¬ (minBPM ≤ (b + 1) / 2 ∧ (b + 1) / 2 ≤ maxBPM ∧
          s * (85/100) < scores ((b + 1) / 2) ∧ 80 ≤ (b + 1) / 2) →
        chooseBPM scores = b)) := by
  unfold chooseBPM
  rw [hfb]
  dsimp only
  unfold resolveOctave
  dsimp only
  constructor
  · intro hd
    rw [if_pos hd]
  · intro hd
    rw [if_neg hd]
    constructor
    · intro hh
      rw [if_pos hh]
    · intro hh
      rw [if_neg hh]

/-! Evaluation lemmas for concrete score tables. -/

lemma bestStep_keep (scores : ℕ → ℚ) (b bpm : ℕ) (s : ℚ) (h : scores bpm ≤ s) :
    bestStep scores (b, some s) bpm = (b, some s) := by
  unfold bestStep
  dsimp only
  rw [if_neg (not_lt.mpr h)]

lemma bestStep_take (scores : ℕ → ℚ) (b bpm : ℕ) (s : ℚ) (h : s < scores bpm) :
    bestStep scores (b, some s) bpm = (bpm, some (scores bpm)) := by
  unfold bestStep
  dsimp only
  rw [if_pos h]

lemma foldl_bestStep_keep (scores : ℕ → ℚ) (l : List ℕ) (b : ℕ) (s : ℚ)
    (h : ∀ x ∈ l, scores x ≤ s) :
    l.foldl (bestStep scores) (b, some s) = (b, some s) := by
  induction l with
  | nil => rfl
  | cons x l ih =>
    rw [List.foldl_cons, bestStep_keep scores b x s (h x (List.mem_cons_self x l)),
      ih (fun y hy => h y (List.mem_cons_of_mem x hy))]

lemma candidate_range_split :
    List.range' minBPM (maxBPM - minBPM + 1)
      = [60] ++ List.range' 61 19 ++ [80] ++ List.range' 81 79 ++ [160]
        ++ List.range' 161 40 := by
  decide

/-- Scores with the winner at 160 BPM and its half tempo at exactly 85 % of
the winner's score. -/
def halfTieScores : ℕ → ℚ := fun b =>
  if b = 160 then 1 else if b = 80 then 17/20 else 0

/-- Negative scores with the winner at 80 BPM and its double tempo at exactly
120 % of the winner's score. -/
def dblTieScores : ℕ → ℚ := fun b =>
  if b = 80 then -1 else if b = 160 then -(6/5) else -2

lemma findBest_halfTieScores : findBest halfTieScores = (160, some 1) := by
  have s1 : List.foldl (bestStep halfTieScores) (120, none) [60] = (60, some 0) := by
    rw [List.foldl_cons, List.foldl_nil]
    norm_num [bestStep, halfTieScores]
  have s2 : List.foldl (bestStep halfTieScores) (60, some 0) (List.range' 61 19)
      = (60, some 0) := by
    refine foldl_bestStep_keep _ _ _ _ ?_
    intro x hx
    obtain ⟨h1, h2⟩ := List.mem_range'_1.mp hx
    unfold halfTieScores
    rw [if_neg (by omega), if_neg (by omega)]
  have s3 : List.foldl (bestStep halfTieScores) (60, some 0) [80] = (80, some (17/20)) := by
    rw [List.foldl_cons, List.foldl_nil,
      bestStep_take _ _ _ _ (by norm_num [halfTieScores])]
    norm_num [halfTieScores]
  have s4 : List.foldl (bestStep halfTieScores) (80, some (17/20)) (List.range' 81 79)
      = (80, some (17/20)) := by
    refine foldl_bestStep_keep _ _ _ _ ?_
    intro x hx
    obtain ⟨h1, h2⟩ := List.mem_range'_1.mp hx
    unfold halfTieScores
    rw [if_neg (by omega), if_neg (by omega)]
    norm_num
  have s5 : List.foldl (bestStep halfTieScores) (80, some (17/20)) [160]
      = (160, some 1) := by
    rw [List.foldl_cons, List.foldl_nil,
      bestStep_take _ _ _ _ (by norm_num [halfTieScores])]
    norm_num [halfTieScores]
  have s6 : List.foldl (bestStep halfTieScores) (160, some 1) (List.range' 161 40)
      = (160, some 1) := by
    refine foldl_bestStep_keep _ _ _ _ ?_
    intro x hx
    obtain ⟨h1, h2⟩ := List.mem_range'_1.mp hx
    unfold halfTieScores
    rw [if_neg (by omega), if_neg (by omega)]
    norm_num
  unfold findBest
  rw [candidate_range_split, List.foldl_append, List.foldl_append, List.foldl_append,
    List.foldl_append, List.foldl_append, s1, s2, s3, s4, s5, s6]

lemma findBest_dblTieScores : findBest dblTieScores = (80, some (-1)) := by
  have s1 : List.foldl (bestStep dblTieScores) (120, none) [60] = (60, some (-2)) := by
    rw [List.foldl_cons, List.foldl_nil]
    norm_num [bestStep, dblTieScores]
  have s2 : List.foldl (bestStep dblTieScores) (60, some (-2)) (List.range' 61 19)
      = (60, some (-2)) := by
    refine foldl_bestStep_keep _ _ _ _ ?_
    intro x hx
    obtain ⟨h1, h2⟩ := List.mem_range'_1.mp hx
    unfold dblTieScores
    rw [if_neg (by omega), if_neg (by omega)]
  have s3 : List.foldl (bestStep dblTieScores) (60, some (-2)) [80] = (80, some (-1)) := by
    rw [List.foldl_cons, List.foldl_nil,
      bestStep_take _ _ _ _ (by norm_num [dblTieScores])]
    norm_num [dblTieScores]
  have s4 : List.foldl (bestStep dblTieScores) (80, some (-1)) (List.range' 81 79)
      = (80, some (-1)) := by
    refine foldl_bestStep_keep _ _ _ _ ?_
    intro x hx
    obtain ⟨h1, h2⟩ := List.mem_range'_1.mp hx
    unfold dblTieScores
    rw [if_neg (by omega)]
    by_cases hx160 : x = 160
    · rw [if_pos hx160]
      norm_num
    · rw [if_neg hx160]
      norm_num
  have s5 : List.foldl (bestStep dblTieScores) (80, some (-1)) [160] = (80, some (-1)) := by
    rw [List.foldl_cons, List.foldl_nil,
      bestStep_keep _ _ _ _ (by norm_num [dblTieScores])]
  have s6 : List.foldl (bestStep dblTieScores) (80, some (-1)) (List.range' 161 40)
      = (80, some (-1)) := by
    refine foldl_bestStep_keep _ _ _ _ ?_
    intro x hx
    obtain ⟨h1, h2⟩ := List.mem_range'_1.mp hx
    unfold dblTieScores
    rw [if_neg (by omega), if_neg (by omega)]
    norm_num
  unfold findBest
  rw [candidate_range_split, List.foldl_append, List.foldl_append, List.foldl_append,
    List.foldl_append, List.foldl_append, s1, s2, s3, s4, s5, s6]

/-- Counterexample to claim C9 as stated: both replacement thresholds are
strict in the code.  With the half tempo at exactly 85 % of the winner's
score (and at least 80 BPM) the winner 160 is kept, though the claim's "at
least 85 %" demands 80; with the double tempo at exactly 120 % of the
winner's score and in range, the winner 80 is kept, though the claim's "by at
least 20 %" demands 160. -/
theorem octave_thresholds_strict :
    (findBest halfTieScores = (160, some 1) ∧
      halfTieScores 80 = (1 : ℚ) * (85/100) ∧ 80 ≤ 80 ∧
      chooseBPM halfTieScores = 160 ∧ (160 : ℕ) ≠ 80) ∧
    (findBest dblTieScores = (80, some (-1)) ∧
      dblTieScores 160 = (-1 : ℚ) * (12/10) ∧ 60 ≤ 160 ∧ 160 ≤ 200 ∧
      chooseBPM dblTieScores = 80 ∧ (80 : ℕ) ≠ 160) := by
  constructor
  · refine ⟨findBest_halfTieScores, by norm_num [halfTieScores], by norm_num, ?_,
      by norm_num⟩
    unfold chooseBPM
    rw [findBest_halfTieScores]
    dsimp only
    unfold resolveOctave
    dsimp only
    rw [if_neg (by
        rintro ⟨-, h2, -⟩
        norm_num [maxBPM] at h2),
      if_neg (by
        rintro ⟨-, -, h3, -⟩
        norm_num [halfTieScores] at h3)]
  · refine ⟨findBest_dblTieScores, by norm_num [dblTieScores], by norm_num,
      by norm_num, ?_, by norm_num⟩
    unfold chooseBPM
    rw [findBest_dblTieScores]
    dsimp only
    unfold resolveOctave
    dsimp only
    rw [if_neg (by
        rintro ⟨-, -, h3⟩
        norm_num [dblTieScores] at h3),
      if_neg (by
        rintro ⟨-, -, -, h4⟩
        omega)]

/-- Scores with the winner at 160 BPM and its half tempo strictly above the
85 % threshold. -/
def halfWinScores : ℕ → ℚ := fun b =>
  if b = 160 then 1 else if b = 80 then 9/10 else 0

lemma findBest_halfWinScores : findBest halfWinScores = (160, some 1) := by
  have s1 : List.foldl (bestStep halfWinScores) (120, none) [60] = (60, some 0) := by
    rw [List.foldl_cons, List.foldl_nil]
    norm_num [bestStep, halfWinScores]
  have s2 : List.foldl (bestStep halfWinScores) (60, some 0) (List.range' 61 19)
      = (60, some 0) := by
    refine foldl_bestStep_keep _ _ _ _ ?_
    intro x hx
    obtain ⟨h1, h2⟩ := List.mem_range'_1.mp hx
    unfold halfWinScores
    rw [if_neg (by omega), if_neg (by omega)]
  have s3 : List.foldl (bestStep halfWinScores) (60, some 0) [80] = (80, some (9/10)) := by
    rw [List.foldl_cons, List.foldl_nil,
      bestStep_take _ _ _ _ (by norm_num [halfWinScores])]
    norm_num [halfWinScores]
  have s4 : List.foldl (bestStep halfWinScores) (80, some (9/10)) (List.range' 81 79)
      = (80, some (9/10)) := by
    refine foldl_bestStep_keep _ _ _ _ ?_
    intro x hx
    obtain ⟨h1, h2⟩ := List.mem_range'_1.mp hx
    unfold halfWinScores
    rw [if_neg (by omega), if_neg (by omega)]
    norm_num
  have s5 : List.foldl (bestStep halfWinScores) (80, some (9/10)) [160]
      = (160, some 1) := by
    rw [List.foldl_cons, List.foldl_nil,
      bestStep_take _ _ _ _ (by norm_num [halfWinScores])]
    norm_num [halfWinScores]
  have s6 : List.foldl (bestStep halfWinScores) (160, some 1) (List.range' 161 40)
      = (160, some 1) := by
    refine foldl_bestStep_keep _ _ _ _ ?_
    intro x hx
    obtain ⟨h1, h2⟩ := List.mem_range'_1.mp hx
    unfold halfWinScores
    rw [if_neg (by omega), if_neg (by omega)]
    norm_num
  unfold findBest
  rw [candidate_range_split, List.foldl_append, List.foldl_append, List.foldl_append,
    List.foldl_append, List.foldl_append, s1, s2, s3, s4, s5, s6]

/-- Witness for `octave_disambiguation`: with the half tempo at 90 % of the
winner's score (strictly above 85 %) and the double tempo out of range, the
winner 160 is replaced by 80. -/
theorem octave_disambiguation_witness : chooseBPM halfWinScores = 80 := by
  have h := (octave_disambiguation halfWinScores 160 1 findBest_halfWinScores).2
    (by
      rintro ⟨-, h2, -⟩
      norm_num [maxBPM] at h2)
  have h2 := h.1 (by
    refine ⟨by norm_num [minBPM], by norm_num [maxBPM], ?_, by norm_num⟩
    rw [show halfWinScores ((160 + 1) / 2) = 9/10 by norm_num [halfWinScores]]
    norm_num)
  simpa using h2

/-! ## TapBPM (src/app.js lines 444–472; claim C10) -/

/-- Lines 458–470 of `TapBPM.tap`: push the tap, trim to the last 12, return
`null` below two stored taps, otherwise `round(60000 / average interval)`.
Returns the new `this.taps` together with the return value (`none` embeds
JS `null`). -/
def tapPush (taps0 : List ℤ) (now : ℤ) : List ℤ × Option ℤ :=
  let taps1 := taps0 ++ [now]
  let taps2 := if 12 < taps1.length then taps1.tail else taps1
  if taps2.length < 2 then (taps2, none)
  else
    let intervals := List.zipWith (fun a b => b - a) taps2 taps2.tail
    let avg := ((intervals.sum : ℤ) : ℚ) / ((intervals.length : ℕ) : ℚ)
    (taps2, some (round ((60000 : ℚ) / avg)))

/-- `TapBPM.tap` (lines 450–471): clear the history when the previous tap is
more than 2000 ms old (lines 453–455), then push, trim and compute. -/
def tap (taps : List ℤ) (now : ℤ) : List ℤ × Option ℤ :=
  tapPush
    (match taps.getLast? with
      | some last => if 2000 < now - last then [] else taps
      | none => taps)
    now

lemma tapPush_fst (t0 : List ℤ) (now : ℤ) :
    (tapPush t0 now).1
      = (if 12 < (t0 ++ [now]).length then (t0 ++ [now]).tail else t0 ++ [now]) := by
  simp only [tapPush]
  by_cases h2 : (if 12 < (t0 ++ [now]).length then (t0 ++ [now]).tail
      else t0 ++ [now]).length < 2
  · rw [if_pos h2]
  · rw [if_neg h2]

lemma tapPush_spec (t0 : List ℤ) (now : ℤ) :
    ((tapPush t0 now).2 = none ↔ (tapPush t0 now).1.length < 2) ∧
    (t0.length ≤ 12 → (tapPush t0 now).1.length ≤ 12) ∧
    (2 ≤ (tapPush t0 now).1.length →
      (List.zipWith (fun a b => b - a) (tapPush t0 now).1
          (tapPush t0 now).1.tail).length + 1 = (tapPush t0 now).1.length ∧
      (tapPush t0 now).2 = some (round ((60000 : ℚ) /
        ((((List.zipWith (fun a b => b - a) (tapPush t0 now).1
            (tapPush t0 now).1.tail).sum : ℤ) : ℚ)
          / (((List.zipWith (fun a b => b - a) (tapPush t0 now).1
              (tapPush t0 now).1.tail).length : ℕ) : ℚ))))) := by
  refine ⟨?_, ?_, ?_⟩
  · rw [tapPush_fst]
    simp only [tapPush]
    by_cases h2 : (if 12 < (t0 ++ [now]).length then (t0 ++ [now]).tail
        else t0 ++ [now]).length < 2
    · rw [if_pos h2]
      simpa using h2
    · rw [if_neg h2]
      simpa using h2
  · intro hlen
    rw [tapPush_fst]
    by_cases h12 : 12 < (t0 ++ [now]).length
    · rw [if_pos h12]
      simp only [List.length_tail, List.length_append, List.length_cons,
        List.length_nil]
      omega
    · rw [if_neg h12]
      simp only [List.length_append, List.length_cons, List.length_nil] at h12 ⊢
      omega
  · intro h2
    rw [tapPush_fst] at h2
    constructor
    · rw [tapPush_fst, List.length_zipWith, List.length_tail]
      omega
    · rw [tapPush_fst]
      simp only [tapPush]
      rw [if_neg (by omega)]

/-- Claim C10, confirmed: `tap()` returns `null` exactly while fewer than two
taps are stored after the call; a tap arriving more than 2000 ms after the
previous one clears the history (so only the new tap remains and `null` is
returned); at most the last 12 taps are retained; and with n ≥ 2 stored taps
the returned BPM is `round(60000 / mean)` over the n−1 consecutive intervals
— an average, not a median. -/
theorem tap_spec (taps : List ℤ) (now : ℤ) :
    ((tap taps now).2 = none ↔ (tap taps now).1.length < 2) ∧
    (∀ last, taps.getLast? = some last → 2000 < now - last →
      tap taps now = ([now], none)) ∧
    (taps.length ≤ 12 → (tap taps now).1.length ≤ 12) ∧
    (2 ≤ (tap taps now).1.length →
      (List.zipWith (fun a b => b - a) (tap taps now).1
          (tap taps now).1.tail).length + 1 = (tap taps now).1.length ∧
      (tap taps now).2 = some (round ((60000 : ℚ) /
        ((((List.zipWith (fun a b => b - a) (tap taps now).1
            (tap taps now).1.tail).sum : ℤ) : ℚ)
          / (((List.zipWith (fun a b => b - a) (tap taps now).1
              (tap taps now).1.tail).length : ℕ) : ℚ))))) := by
  obtain ⟨h1, h2, h3⟩ := tapPush_spec
    (match taps.getLast? with
      | some last => if 2000 < now - last then [] else taps
      | none => taps) now
  refine ⟨h1, ?_, ?_, h3⟩
  · intro last hl hgap
    show tapPush
      (match taps.getLast? with
        | some last => if 2000 < now - last then [] else taps
        | none => taps) now = ([now], none)
    rw [hl]
    dsimp only
    rw [if_pos hgap]
    rfl
  · intro hlen
    refine h2 ?_
    rcases hl : taps.getLast? with _ | last
    · exact hlen
    · dsimp only
      split
      · simp
      · exact hlen

/-- Witness for `tap_spec`: four prior taps at 0, 400, 800, 1000 ms and a tap
at 1200 ms yield intervals [400, 400, 200, 200], mean 300,
`round(60000/300) = 200` (a median-based estimate would give
`round(60000/400) = 150`); a tap 3500 ms after the previous one resets the
history and returns null. -/
theorem tap_spec_witness :
    (tap [0, 400, 800, 1000] 1200).1 = [0, 400, 800, 1000, 1200] ∧
    (tap [0, 400, 800, 1000] 1200).2 = some 200 ∧
    tap [2500] 6000 = ([6000], none) := by
  have hfst : (tap [0, 400, 800, 1000] 1200).1 = [0, 400, 800, 1000, 1200] := by
    show (tapPush
      (match List.getLast? [0, 400, 800, 1000] with
        | some last => if 2000 < (1200 : ℤ) - last then [] else [0, 400, 800, 1000]
        | none => [0, 400, 800, 1000]) 1200).1 = [0, 400, 800, 1000, 1200]
    rw [show List.getLast? [(0 : ℤ), 400, 800, 1000] = some 1000 from rfl]
    dsimp only
    rw [if_neg (by norm_num), tapPush_fst]
    norm_num
  refine ⟨hfst, ?_, ?_⟩
  · have h := ((tap_spec [0, 400, 800, 1000] 1200).2.2.2 (by rw [hfst]; norm_num)).2
    rw [hfst] at h
    rw [h]
    norm_num [round]
  · exact (tap_spec [2500] 6000).2.1 2500 rfl (by norm_num)

end Cadence
